import Mathlib

/-!
# Verification of the Tetris game engine (js48jjw/Tetris)

Shallow embedding of the game-state engine found in this repository.  The
repository contains several near-identical copies of the engine:

* variant A — `src/src/app/page.tsx` and the `useTetrisGame` hook in the
  second half of `src/unnamed/part_000` (board cells `(number | string)`,
  pieces carrying their own `x`/`y`, `checkCollision`, `placePiece`,
  `getClearedLines`, `removeAndShiftLines`, `movePiece(direction)`,
  `hardDrop`, a deferred line-clear effect, and a rotation handler that
  tries only the unshifted position);
* variant B — the first component in `src/unnamed/part_000`
  (`isValidPosition`, `placePiece(board,piece,pos)`, `clearLines`,
  `movePiece(dx,dy,isPlayerMove)`, `rotatePieceHandler` with wall kicks,
  `dropPiece`, `togglePause`, `calcLevel`).

JavaScript arrays become `List`s, board cells become `Option String`
(`none` = the number `0`, `some c` = a color string; all color strings in
the catalogs are nonempty, so JS truthiness coincides with `Option.isSome`
and `cell !== 0` likewise).  Piece coordinates are `Int` exactly as JS
numbers are used (they go negative above the top edge).  Randomness
(`createRandomTetromino` / the 7-bag `createRandomPiece`) is modelled by
passing the freshly generated piece as an explicit argument.  Sound,
animation timing and rendering are presentation-layer and are elided; the
line-clear animation effect is modelled by the state function that runs
when the animation completes (`clearEffectA`).
-/

/-- A board cell: `none` is the empty cell `0`, `some c` a color string. -/
abbrev Cell := Option String

/-- The play-field: a list of rows, each a list of cells (row 0 at top). -/
abbrev Board := List (List Cell)

/-- `const BOARD_WIDTH = 10;` (identical in every copy). -/
def BOARD_WIDTH : Nat := 10

/-- `const BOARD_HEIGHT = 20;` (identical in every copy). -/
def BOARD_HEIGHT : Nat := 20

/-- An all-empty row, `Array(BOARD_WIDTH).fill(0)`. -/
def emptyRow : List Cell := List.replicate BOARD_WIDTH none

/-- An all-empty board, `Array(BOARD_HEIGHT).fill(0).map(() => ...)`. -/
def emptyBoard : Board := List.replicate BOARD_HEIGHT emptyRow

/-- Read the board cell at integer coordinates the way the JS code indexes:
`boardState[y] && boardState[y][x]` — a missing row or cell is falsy
(modelled as `none`).  Only ever used after the code has established
`0 ≤ y` and `0 ≤ x`, so `Int.toNat` is exact. -/
def cellAt (b : Board) (y x : Int) : Cell :=
  (b.getD y.toNat []).getD x.toNat none

/-- The per-cell collision test shared by `checkCollision` (variant A) and
`isValidPosition` (variant B): the sub-cell at board column `X`, row `Y`
collides iff `X < 0 || X >= BOARD_WIDTH || Y >= BOARD_HEIGHT`, or
`Y >= 0` and the board cell there is occupied.  Negative rows are never
inspected. -/
def collidesAt (b : Board) (Y X : Int) : Bool :=
  decide (X < 0) || decide ((BOARD_WIDTH : Int) ≤ X) ||
    decide ((BOARD_HEIGHT : Int) ≤ Y) ||
    (decide (0 ≤ Y) && (cellAt b Y X).isSome)

/-- The nested `for` loops of `checkCollision` / `isValidPosition`: scan the
shape's bounding box, and report a collision iff some occupied sub-cell
(`piece.shape[y][x]` truthy) collides at `(px + x, py + y)`. -/
def shapeCollides (shape : List (List Nat)) (px py : Int) (b : Board) : Bool :=
  shape.enum.any (fun lyRow =>
    lyRow.2.enum.any (fun lxv =>
      lxv.2 != 0 && collidesAt b (py + lyRow.1) (px + lxv.1)))

/-- The list of board coordinates `(row, column)` covered by the occupied
sub-cells of a shape whose bounding box sits at column `px`, row `py`. -/
def shapeCells (shape : List (List Nat)) (px py : Int) : List (Int × Int) :=
  (shape.enum.map (fun lyRow =>
    lyRow.2.enum.filterMap (fun lxv =>
      if lxv.2 ≠ 0 then some (py + (lyRow.1 : Int), px + (lxv.1 : Int)) else none))).flatten

/-- What the collision check actually guarantees for a single sub-cell at
row `rc.1`, column `rc.2`: inside the side walls, above the floor, and not
overlapping an occupied board cell — but only for rows `≥ 0`; rows above
the top edge are unconstrained beyond the column bounds. -/
def CellOK (b : Board) (rc : Int × Int) : Prop :=
  0 ≤ rc.2 ∧ rc.2 < (BOARD_WIDTH : Int) ∧ rc.1 < (BOARD_HEIGHT : Int) ∧
    (0 ≤ rc.1 → cellAt b rc.1 rc.2 = none)

instance (b : Board) (rc : Int × Int) : Decidable (CellOK b rc) := by
  unfold CellOK; infer_instance

theorem collidesAt_eq_false {b : Board} {Y X : Int} :
    collidesAt b Y X = false ↔ CellOK b (Y, X) := by
  simp only [collidesAt, CellOK, Bool.or_eq_false_iff, Bool.and_eq_false_iff,
    decide_eq_false_iff_not, not_lt, not_le]
  constructor
  · rintro ⟨⟨⟨hx0, hxW⟩, hY⟩, h⟩
    refine ⟨hx0, hxW, hY, fun h0 => ?_⟩
    rcases h with h | h
    · exact absurd h0 (by simpa using h)
    · exact Option.not_isSome_iff_eq_none.mp (by simp [h])
  · rintro ⟨hx0, hxW, hY, h⟩
    refine ⟨⟨⟨hx0, hxW⟩, hY⟩, ?_⟩
    by_cases h0 : 0 ≤ Y
    · exact Or.inr (by simp [h h0])
    · exact Or.inl (by simpa using h0)

theorem mem_shapeCells {shape : List (List Nat)} {px py : Int} {rc : Int × Int} :
    rc ∈ shapeCells shape px py ↔
      ∃ p ∈ shape.enum, ∃ q ∈ p.2.enum, q.2 ≠ 0 ∧
        rc = (py + (p.1 : Int), px + (q.1 : Int)) := by
  constructor
  · intro h
    rw [shapeCells, List.mem_flatten] at h
    obtain ⟨l, hl, hrc⟩ := h
    rw [List.mem_map] at hl
    obtain ⟨p, hp, rfl⟩ := hl
    rw [List.mem_filterMap] at hrc
    obtain ⟨q, hq, hsome⟩ := hrc
    rw [Option.ite_none_right_eq_some, Option.some.injEq] at hsome
    exact ⟨p, hp, q, hq, hsome.1, hsome.2.symm⟩
  · rintro ⟨p, hp, q, hq, hz, rfl⟩
    rw [shapeCells, List.mem_flatten]
    refine ⟨_, List.mem_map.mpr ⟨p, hp, rfl⟩, ?_⟩
    rw [List.mem_filterMap]
    exact ⟨q, hq, by simp [hz]⟩

theorem shapeCollides_eq_true {shape : List (List Nat)} {px py : Int} {b : Board} :
    shapeCollides shape px py b = true ↔
      ∃ rc ∈ shapeCells shape px py, collidesAt b rc.1 rc.2 = true := by
  rw [shapeCollides, List.any_eq_true]
  constructor
  · rintro ⟨p, hp, hinner⟩
    rw [List.any_eq_true] at hinner
    obtain ⟨q, hq, hb⟩ := hinner
    rw [Bool.and_eq_true, bne_iff_ne] at hb
    exact ⟨(py + (p.1 : Int), px + (q.1 : Int)),
      mem_shapeCells.mpr ⟨p, hp, q, hq, hb.1, rfl⟩, hb.2⟩
  · rintro ⟨rc, hrc, hcol⟩
    obtain ⟨p, hp, q, hq, hz, rfl⟩ := mem_shapeCells.mp hrc
    refine ⟨p, hp, ?_⟩
    rw [List.any_eq_true]
    exact ⟨q, hq, by rw [Bool.and_eq_true, bne_iff_ne]; exact ⟨hz, hcol⟩⟩

theorem shapeCollides_eq_false {shape : List (List Nat)} {px py : Int} {b : Board} :
    shapeCollides shape px py b = false ↔
      ∀ rc ∈ shapeCells shape px py, CellOK b rc := by
  constructor
  · intro h rc hrc
    refine collidesAt_eq_false.mp (Bool.eq_false_iff.mpr fun hc => ?_)
    have := shapeCollides_eq_true.mpr ⟨rc, hrc, hc⟩
    rw [h] at this
    exact Bool.false_ne_true this
  · intro h
    refine Bool.eq_false_iff.mpr fun hc => ?_
    obtain ⟨rc, hrc, hcol⟩ := shapeCollides_eq_true.mp hc
    have := collidesAt_eq_false.mpr (h rc hrc)
    rw [hcol] at this
    simp at this

/-! ## Piece placement (`placePiece`) -/

/-- Board cell lookup at `Nat` coordinates. -/
def cellAtN (b : Board) (r c : Nat) : Cell :=
  (b.getD r []).getD c none

/-- `newBoard[boardY][boardX] = piece.color` on the copied board: update one
cell, a no-op if the indices fall outside the materialised lists. -/
def setCell (b : Board) (r c : Nat) (color : String) : Board :=
  b.set r ((b.getD r []).set c (some color))

/-- A well-formed play-field: exactly `BOARD_HEIGHT` rows of width
`BOARD_WIDTH`. -/
def BoardWF (b : Board) : Prop :=
  b.length = BOARD_HEIGHT ∧ ∀ row ∈ b, row.length = BOARD_WIDTH

instance (b : Board) : Decidable (BoardWF b) := by
  unfold BoardWF
  infer_instance

theorem getD_set_self {α : Type} {l : List α} {i : Nat} (h : i < l.length) (a d : α) :
    (l.set i a).getD i d = a := by
  simp [List.getD_eq_getElem?_getD, List.getElem?_set_self', h]

theorem getD_set_ne {α : Type} {l : List α} {i j : Nat} (h : i ≠ j) (a d : α) :
    (l.set i a).getD j d = l.getD j d := by
  simp [List.getD_eq_getElem?_getD, List.getElem?_set_ne h]

theorem getD_mem_of_lt {α : Type} {l : List α} {i : Nat} (h : i < l.length) (d : α) :
    l.getD i d ∈ l := by
  rw [List.getD_eq_getElem?_getD, List.getElem?_eq_getElem h]
  exact List.getElem_mem h

theorem boardWF_setCell {b : Board} (hwf : BoardWF b) (r c : Nat) (color : String) :
    BoardWF (setCell b r c color) := by
  obtain ⟨hlen, hrow⟩ := hwf
  refine ⟨by simp [setCell, hlen], fun row hmem => ?_⟩
  by_cases hr : r < b.length
  · rcases List.mem_or_eq_of_mem_set hmem with h | h
    · exact hrow row h
    · subst h
      simpa using hrow _ (getD_mem_of_lt hr [])
  · rw [setCell, List.set_eq_of_length_le (by omega)] at hmem
    exact hrow row hmem

theorem cellAtN_setCell {b : Board} (hwf : BoardWF b) {r0 c0 : Nat}
    (hr0 : r0 < BOARD_HEIGHT) (hc0 : c0 < BOARD_WIDTH) (color : String) (r c : Nat) :
    cellAtN (setCell b r0 c0 color) r c =
      if r0 = r ∧ c0 = c then some color else cellAtN b r c := by
  obtain ⟨hlen, hrow⟩ := hwf
  have hrlen : r0 < b.length := by rw [hlen]; exact hr0
  by_cases hr : r0 = r
  · subst hr
    rw [cellAtN, setCell, getD_set_self hrlen]
    have hclen : c0 < (b.getD r0 []).length := by
      rw [hrow _ (getD_mem_of_lt hrlen [])]; exact hc0
    by_cases hc : c0 = c
    · subst hc
      rw [getD_set_self hclen]
      simp
    · rw [getD_set_ne hc]
      simp [hc, cellAtN]
  · rw [cellAtN, setCell, getD_set_ne hr]
    simp [hr, cellAtN]

/-- The nested loops of `placePiece` (both variants write the same way):
copy the board, then for every occupied sub-cell whose board row is
non-negative, write the piece color at `(boardY, boardX)`.  (Writes at
out-of-range indices are no-ops here; the engine only places pieces at
positions accepted by the collision check, where every non-negative-row
sub-cell is inside the board.) -/
def placeShape (shape : List (List Nat)) (px py : Int) (color : String) (b : Board) : Board :=
  shape.enum.foldl (fun bd lyRow =>
    lyRow.2.enum.foldl (fun bd2 lxv =>
      if lxv.2 != 0 && decide (0 ≤ py + (lyRow.1 : Int)) then
        setCell bd2 (py + (lyRow.1 : Int)).toNat (px + (lxv.1 : Int)).toNat color
      else bd2) bd) b

/-- The `Nat`-coordinate cells `placeShape` actually writes: the occupied
sub-cells with non-negative board row. -/
def writeTargets (shape : List (List Nat)) (px py : Int) : List (Nat × Nat) :=
  (shapeCells shape px py).filterMap (fun rc =>
    if 0 ≤ rc.1 then some (rc.1.toNat, rc.2.toNat) else none)

theorem foldl_write_filterMap {β : Type} (cond : β → Bool) (tgt : β → Nat × Nat)
    (color : String) (l : List β) : ∀ b : Board,
    l.foldl (fun bd q => if cond q then setCell bd (tgt q).1 (tgt q).2 color else bd) b =
      (l.filterMap (fun q => if cond q then some (tgt q) else none)).foldl
        (fun bd t => setCell bd t.1 t.2 color) b := by
  induction l with
  | nil => intro b; rfl
  | cons q l ih =>
    intro b
    by_cases h : cond q <;> simp [h, ih]

theorem foldl_map_flatten {β γ : Type} (w : Board → γ → Board) (F : β → List γ)
    (L : List β) : ∀ b : Board,
    L.foldl (fun bd p => (F p).foldl w bd) b = ((L.map F).flatten).foldl w b := by
  induction L with
  | nil => intro b; rfl
  | cons p L ih =>
    intro b
    simp [List.foldl_append, ih]

theorem placeShape_eq_writes (shape : List (List Nat)) (px py : Int) (color : String)
    (b : Board) :
    placeShape shape px py color b =
      (writeTargets shape px py).foldl (fun bd t => setCell bd t.1 t.2 color) b := by
  rw [placeShape]
  have h1 : (fun (bd : Board) (lyRow : Nat × List Nat) =>
      lyRow.2.enum.foldl (fun bd2 lxv =>
        if lxv.2 != 0 && decide (0 ≤ py + (lyRow.1 : Int)) then
          setCell bd2 (py + (lyRow.1 : Int)).toNat (px + (lxv.1 : Int)).toNat color
        else bd2) bd) =
      (fun (bd : Board) (lyRow : Nat × List Nat) =>
        (lyRow.2.enum.filterMap (fun lxv =>
          if lxv.2 != 0 && decide (0 ≤ py + (lyRow.1 : Int)) then
            some ((py + (lyRow.1 : Int)).toNat, (px + (lxv.1 : Int)).toNat)
          else none)).foldl (fun bd t => setCell bd t.1 t.2 color) bd) := by
    funext bd lyRow
    exact foldl_write_filterMap
      (fun lxv : Nat × Nat => lxv.2 != 0 && decide (0 ≤ py + (lyRow.1 : Int)))
      (fun lxv : Nat × Nat => ((py + (lyRow.1 : Int)).toNat, (px + (lxv.1 : Int)).toNat))
      color _ bd
  rw [h1, foldl_map_flatten]
  congr 1
  rw [writeTargets, shapeCells, List.filterMap_flatten, List.map_map]
  have h2 : (fun (lyRow : Nat × List Nat) =>
      lyRow.2.enum.filterMap (fun lxv =>
        if lxv.2 != 0 && decide (0 ≤ py + (lyRow.1 : Int)) then
          some ((py + (lyRow.1 : Int)).toNat, (px + (lxv.1 : Int)).toNat)
        else none)) =
      ((List.filterMap (fun rc : Int × Int =>
          if 0 ≤ rc.1 then some (rc.1.toNat, rc.2.toNat) else none)) ∘
        (fun (lyRow : Nat × List Nat) =>
          lyRow.2.enum.filterMap (fun lxv =>
            if lxv.2 ≠ 0 then some (py + (lyRow.1 : Int), px + (lxv.1 : Int))
            else none))) := by
    funext p
    rw [Function.comp_apply, List.filterMap_filterMap]
    congr 1
    funext q
    by_cases hz : q.2 = 0
    · simp [hz]
    · by_cases hy : 0 ≤ py + (p.1 : Int) <;> simp [hz, hy]
  rw [h2]

theorem length_foldl_setCell (color : String) (L : List (Nat × Nat)) : ∀ b : Board,
    (L.foldl (fun bd t => setCell bd t.1 t.2 color) b).length = b.length := by
  induction L with
  | nil => intro b; rfl
  | cons t L ih =>
    intro b
    rw [List.foldl_cons, ih, setCell, List.length_set]

theorem boardWF_foldl_setCell (color : String) (L : List (Nat × Nat)) : ∀ b : Board,
    BoardWF b → BoardWF (L.foldl (fun bd t => setCell bd t.1 t.2 color) b) := by
  induction L with
  | nil => intro b h; exact h
  | cons t L ih =>
    intro b h
    exact ih _ (boardWF_setCell h t.1 t.2 color)

theorem cellAtN_foldl_setCell (color : String) (L : List (Nat × Nat)) : ∀ b : Board,
    BoardWF b → (∀ t ∈ L, t.1 < BOARD_HEIGHT ∧ t.2 < BOARD_WIDTH) → ∀ r c : Nat,
    cellAtN (L.foldl (fun bd t => setCell bd t.1 t.2 color) b) r c =
      if (r, c) ∈ L then some color else cellAtN b r c := by
  induction L with
  | nil =>
    intro b _ _ r c
    simp
  | cons t L ih =>
    intro b hwf hin r c
    rw [List.foldl_cons, ih _ (boardWF_setCell hwf t.1 t.2 color)
      (fun u hu => hin u (List.mem_cons_of_mem t hu)) r c]
    by_cases hmem : (r, c) ∈ L
    · simp [hmem]
    · obtain ⟨ht1, ht2⟩ := hin t (List.mem_cons_self t L)
      rw [cellAtN_setCell hwf ht1 ht2 color r c]
      by_cases ht : t = (r, c)
      · subst ht
        simp
      · have h3 : ¬(t.1 = r ∧ t.2 = c) := fun h => ht (Prod.ext h.1 h.2)
        have h4 : ¬((r, c) = t) := fun h => ht h.symm
        simp [h3, hmem, h4]

theorem mem_writeTargets {shape : List (List Nat)} {px py : Int} {t : Nat × Nat} :
    t ∈ writeTargets shape px py ↔
      ∃ rc ∈ shapeCells shape px py, 0 ≤ rc.1 ∧ rc.1.toNat = t.1 ∧ rc.2.toNat = t.2 := by
  rw [writeTargets, List.mem_filterMap]
  constructor
  · rintro ⟨rc, hrc, hsome⟩
    rw [Option.ite_none_right_eq_some, Option.some.injEq] at hsome
    exact ⟨rc, hrc, hsome.1, by rw [← hsome.2], by rw [← hsome.2]⟩
  · rintro ⟨rc, hrc, h0, h1, h2⟩
    refine ⟨rc, hrc, ?_⟩
    rw [if_pos h0]
    exact congrArg some (Prod.ext h1 h2)

theorem length_placeShape (shape : List (List Nat)) (px py : Int) (color : String)
    (b : Board) : (placeShape shape px py color b).length = b.length := by
  rw [placeShape_eq_writes]
  exact length_foldl_setCell color _ b

theorem boardWF_placeShape {shape : List (List Nat)} {px py : Int} {color : String}
    {b : Board} (hwf : BoardWF b) : BoardWF (placeShape shape px py color b) := by
  rw [placeShape_eq_writes]
  exact boardWF_foldl_setCell color _ b hwf

theorem cellAtN_placeShape {shape : List (List Nat)} {px py : Int} {color : String}
    {b : Board} (hwf : BoardWF b)
    (hin : ∀ rc ∈ shapeCells shape px py, 0 ≤ rc.1 →
      0 ≤ rc.2 ∧ rc.1 < (BOARD_HEIGHT : Int) ∧ rc.2 < (BOARD_WIDTH : Int))
    (r c : Nat) :
    cellAtN (placeShape shape px py color b) r c =
      if ((r : Int), (c : Int)) ∈ shapeCells shape px py then some color
      else cellAtN b r c := by
  rw [placeShape_eq_writes]
  rw [cellAtN_foldl_setCell color _ b hwf ?bounds r c]
  case bounds =>
    intro t ht
    obtain ⟨rc, hrc, h0, h1, h2⟩ := mem_writeTargets.mp ht
    obtain ⟨hx0, hH, hW⟩ := hin rc hrc h0
    simp only [BOARD_HEIGHT, BOARD_WIDTH] at hH hW ⊢
    omega
  by_cases hm : (((r : Nat) : Int), ((c : Nat) : Int)) ∈ shapeCells shape px py
  · rw [if_pos hm, if_pos]
    exact mem_writeTargets.mpr ⟨((r : Int), (c : Int)), hm, by omega, by omega, by omega⟩
  · rw [if_neg hm, if_neg]
    intro hw
    obtain ⟨rc, hrc, h0, h1, h2⟩ := mem_writeTargets.mp hw
    obtain ⟨hx0, hH, hW⟩ := hin rc hrc h0
    have : rc = ((r : Int), (c : Int)) := by
      have e1 : rc.1 = (r : Int) := by omega
      have e2 : rc.2 = (c : Int) := by omega
      exact Prod.ext e1 e2
    rw [this] at hrc
    exact hm hrc

/-! ## Line-clear resolution -/

/-- A row is "full" iff every cell is occupied
(`boardState[y].every(cell => cell !== 0)`). -/
def isFullRow (row : List Cell) : Bool :=
  row.all (fun cell => cell.isSome)

/-- part_000 `clearLines`: keep the rows having some empty cell
(`row.some(cell => !cell)`), count the removed rows against
`BOARD_HEIGHT`, and prepend that many empty rows. -/
def clearLines (b : Board) : Board × Nat :=
  let newBoard := b.filter (fun row => row.any (fun cell => !cell.isSome))
  let clearedLines := BOARD_HEIGHT - newBoard.length
  (List.replicate clearedLines emptyRow ++ newBoard, clearedLines)

/-- page.tsx `getClearedLines`: scan `y` from `BOARD_HEIGHT - 1` down to 0
and push each full row index (so the list is descending). -/
def getClearedLines (b : Board) : List Nat :=
  ((List.range BOARD_HEIGHT).filter (fun y => isFullRow (b.getD y []))).reverse

/-- page.tsx `removeAndShiftLines`: drop the rows whose index is listed,
prepend the same number of empty rows. -/
def removeAndShiftLines (b : Board) (linesToRemove : List Nat) : Board :=
  List.replicate linesToRemove.length emptyRow ++
    ((b.enum.filter (fun p => !(linesToRemove.contains p.1))).map Prod.snd)

theorem length_filter_not_add {α : Type} (p : α → Bool) (l : List α) :
    (l.filter (fun x => !p x)).length + (l.filter p).length = l.length := by
  induction l with
  | nil => rfl
  | cons a l ih =>
    by_cases h : p a <;> simp [h] <;> omega

theorem clearLines_keep (b : Board) :
    (clearLines b).1 =
      List.replicate (clearLines b).2 emptyRow ++ b.filter (fun r => !(isFullRow r)) := by
  have h : b.filter (fun row => row.any (fun cell => !cell.isSome)) =
      b.filter (fun r => !(isFullRow r)) := by
    refine List.filter_congr fun row _ => ?_
    rw [isFullRow, List.any_eq_not_all_not]
    simp
  rw [clearLines, h]

theorem clearLines_count {b : Board} (hb : b.length = BOARD_HEIGHT) :
    (clearLines b).2 = (b.filter isFullRow).length := by
  have h := length_filter_not_add isFullRow b
  have h2 : b.filter (fun row => row.any (fun cell => !cell.isSome)) =
      b.filter (fun r => !(isFullRow r)) := by
    refine List.filter_congr fun row _ => ?_
    rw [isFullRow, List.any_eq_not_all_not]
    simp
  rw [clearLines]
  simp only [h2]
  omega

theorem clearLines_length {b : Board} (hb : b.length = BOARD_HEIGHT) :
    (clearLines b).1.length = BOARD_HEIGHT := by
  rw [clearLines]
  simp only [List.length_append, List.length_replicate]
  have := List.length_filter_le (fun row => row.any (fun cell => !cell.isSome)) b
  omega

theorem mem_getClearedLines {b : Board} {y : Nat} :
    y ∈ getClearedLines b ↔ y < BOARD_HEIGHT ∧ isFullRow (b.getD y []) := by
  rw [getClearedLines]
  simp [List.mem_filter, List.mem_range]

theorem length_filter_range_getD {α : Type} (l : List α) (p : α → Bool) (d : α) :
    ((List.range l.length).filter (fun i => p (l.getD i d))).length =
      (l.filter p).length := by
  induction l with
  | nil => rfl
  | cons a l ih =>
    rw [List.length_cons, List.range_succ_eq_map, List.filter_cons]
    have hmap : (List.map (fun i => i + 1) (List.range l.length)).filter
        (fun i => p ((a :: l).getD i d)) =
        List.map (fun i => i + 1) ((List.range l.length).filter (fun i => p (l.getD i d))) := by
      rw [List.filter_map]
      rfl
    by_cases h : p a
    · simp only [List.getD_cons_zero, h, if_pos]
      rw [List.filter_cons, hmap]
      simp only [h, if_pos, List.length_cons, List.length_map]
      simp only [List.getD_eq_getElem?_getD] at ih ⊢
      omega
    · simp only [List.getD_cons_zero, h]
      rw [List.filter_cons, hmap]
      simp only [h, List.length_map, Bool.false_eq_true, if_false]
      simp only [List.getD_eq_getElem?_getD] at ih ⊢
      omega

theorem length_getClearedLines {b : Board} (hb : b.length = BOARD_HEIGHT) :
    (getClearedLines b).length = (b.filter isFullRow).length := by
  rw [getClearedLines, List.length_reverse, ← hb, length_filter_range_getD]

theorem enumFrom_filter_snd {α : Type} (p : α → Bool) (l : List α) : ∀ n : Nat,
    ((l.enumFrom n).filter (fun q => p q.2)).map Prod.snd = l.filter p := by
  induction l with
  | nil => intro n; rfl
  | cons a l ih =>
    intro n
    rw [List.enumFrom_cons, List.filter_cons, List.filter_cons]
    by_cases h : p a <;> simp [h, ih]

theorem getD_of_mem_enum {α : Type} {l : List α} {q : Nat × α} (h : q ∈ l.enum) (d : α) :
    q.1 < l.length ∧ l.getD q.1 d = q.2 := by
  have hg := List.mem_enum_iff_getElem?.mp h
  constructor
  · by_contra hlt
    rw [List.getElem?_eq_none (by omega)] at hg
    exact Option.noConfusion hg
  · rw [List.getD_eq_getElem?_getD, hg]
    rfl

theorem removeAndShiftLines_getCleared {b : Board} (hb : b.length = BOARD_HEIGHT) :
    removeAndShiftLines b (getClearedLines b) =
      List.replicate (b.filter isFullRow).length emptyRow ++
        b.filter (fun r => !(isFullRow r)) := by
  rw [removeAndShiftLines, length_getClearedLines hb]
  congr 1
  have hcongr : b.enum.filter (fun p => !((getClearedLines b).contains p.1)) =
      b.enum.filter (fun q => !(isFullRow q.2)) := by
    refine List.filter_congr fun q hq => ?_
    obtain ⟨hlt, hget⟩ := getD_of_mem_enum hq []
    have : (getClearedLines b).contains q.1 = isFullRow q.2 := by
      by_cases h : isFullRow q.2
      · rw [h]
        exact List.elem_iff.mpr (mem_getClearedLines.mpr ⟨by omega, by rw [hget]; exact h⟩)
      · rw [Bool.eq_false_iff.mpr h]
        rw [Bool.eq_false_iff]
        intro hcont
        have hmem := List.elem_iff.mp hcont
        obtain ⟨_, hfull⟩ := mem_getClearedLines.mp hmem
        rw [hget] at hfull
        exact h hfull
    rw [this]
  rw [hcongr]
  exact enumFrom_filter_snd (fun r => !(isFullRow r)) b 0

/-! ## Rotation and the piece catalogs -/

/-- `piece.shape[0].map((_, i) => piece.shape.map(row => row[i]).reverse())`
(textually identical in every copy of the engine): row `i` of the result is
column `i` of the shape, reversed. -/
def rotateShape (shape : List (List Nat)) : List (List Nat) :=
  (List.range (shape.headD []).length).map (fun i =>
    (shape.map (fun row => row.getD i 0)).reverse)

/-- Modelled from the spec words, for comparison with `rotateShape`:
"transposing the bounding-box grid and reversing rows". -/
def rotateByTransposeSpec (shape : List (List Nat)) : List (List Nat) :=
  shape.transpose.map List.reverse

/-- The seven template shapes of `TETROMINOS` in `page.tsx` (4×4 I, 2×2 O,
3×3 T/S/Z/J/L). -/
def TETROMINOS_A : List (List (List Nat)) :=
  [[[0, 0, 0, 0], [1, 1, 1, 1], [0, 0, 0, 0], [0, 0, 0, 0]],
   [[1, 1], [1, 1]],
   [[0, 1, 0], [1, 1, 1], [0, 0, 0]],
   [[0, 1, 1], [1, 1, 0], [0, 0, 0]],
   [[1, 1, 0], [0, 1, 1], [0, 0, 0]],
   [[1, 0, 0], [1, 1, 1], [0, 0, 0]],
   [[0, 0, 1], [1, 1, 1], [0, 0, 0]]]

/-- The seven template shapes of `TETROMINOS` in the first component of
`part_000` (trimmed bounding boxes: 1×4 I, 2×2 O, 2×3 T/S/Z/J/L). -/
def TETROMINOS_B : List (List (List Nat)) :=
  [[[1, 1, 1, 1]],
   [[1, 1], [1, 1]],
   [[0, 1, 0], [1, 1, 1]],
   [[0, 1, 1], [1, 1, 0]],
   [[1, 1, 0], [0, 1, 1]],
   [[1, 0, 0], [1, 1, 1]],
   [[0, 0, 1], [1, 1, 1]]]

/-! ## Hard-drop probe loop -/

/-- The probe loop `while (!checkCollision(piece, board, 0, d + 1)) d++`
(page.tsx `hardDrop`; `dropPiece` in part_000 probes identically through
`isValidPosition`).  `fuel` is only a termination bound; it is chosen large
enough that the loop always stops at a collision first whenever the shape
has at least one occupied sub-cell (`dropDistance_spec`). -/
def dropAux (shape : List (List Nat)) (px py : Int) (b : Board) : Nat → Nat → Nat
  | 0, d => d
  | fuel + 1, d =>
    if !(shapeCollides shape px (py + d + 1) b) then dropAux shape px py b fuel (d + 1)
    else d

/-- The computed hard-drop distance. -/
def dropDistance (shape : List (List Nat)) (px py : Int) (b : Board) : Nat :=
  dropAux shape px py b (((BOARD_HEIGHT : Int) - py).toNat + 1) 0

theorem dropAux_spec (shape : List (List Nat)) (px py : Int) (b : Board) :
    ∀ fuel d : Nat,
      d ≤ dropAux shape px py b fuel d ∧
      dropAux shape px py b fuel d ≤ d + fuel ∧
      (∀ k, d < k → k ≤ dropAux shape px py b fuel d →
        shapeCollides shape px (py + k) b = false) ∧
      (dropAux shape px py b fuel d < d + fuel →
        shapeCollides shape px (py + (dropAux shape px py b fuel d) + 1) b = true) := by
  intro fuel
  induction fuel with
  | zero =>
    intro d
    simp only [dropAux]
    exact ⟨le_rfl, by omega, fun k h1 h2 => by omega, fun h => by omega⟩
  | succ fuel ih =>
    intro d
    by_cases h : shapeCollides shape px (py + d + 1) b
    · rw [dropAux, if_neg (by simp [h])]
      refine ⟨le_rfl, by omega, fun k h1 h2 => by omega, fun _ => ?_⟩
      exact h
    · rw [dropAux, if_pos (by simp [h])]
      obtain ⟨ih1, ih2, ih3, ih4⟩ := ih (d + 1)
      refine ⟨by omega, by omega, fun k h1 h2 => ?_, fun hlt => ih4 (by omega)⟩
      by_cases hk : k = d + 1
      · subst hk
        rw [Bool.eq_false_iff]
        intro hc
        apply h
        have : py + ((d + 1 : Nat) : Int) = py + (d : Int) + 1 := by push_cast; ring
        rw [this] at hc
        exact hc
      · exact ih3 k (by omega) h2

theorem dropDistance_spec {shape : List (List Nat)} {px py : Int} {b : Board}
    (hOcc : shapeCells shape px py ≠ []) :
    (∀ k, 0 < k → k ≤ dropDistance shape px py b →
      shapeCollides shape px (py + k) b = false) ∧
    shapeCollides shape px (py + (dropDistance shape px py b) + 1) b = true := by
  obtain ⟨h1, h2, h3, h4⟩ :=
    dropAux_spec shape px py b (((BOARD_HEIGHT : Int) - py).toNat + 1) 0
  refine ⟨fun k hk1 hk2 => h3 k hk1 hk2, ?_⟩
  apply h4
  obtain ⟨rc0, hrc0⟩ := List.exists_mem_of_ne_nil _ hOcc
  obtain ⟨p, hp, q, hq, hz, rfl⟩ := mem_shapeCells.mp hrc0
  set r := dropAux shape px py b (((BOARD_HEIGHT : Int) - py).toNat + 1) 0 with hr
  rcases Nat.eq_zero_or_pos r with h0 | hpos
  · omega
  · have hfits := h3 r hpos le_rfl
    rw [shapeCollides_eq_false] at hfits
    have hmem : ((py + (r : Int)) + (p.1 : Int), px + (q.1 : Int)) ∈
        shapeCells shape px (py + (r : Int)) :=
      mem_shapeCells.mpr ⟨p, hp, q, hq, hz, rfl⟩
    obtain ⟨_, _, hlt, _⟩ := hfits _ hmem
    simp only [BOARD_HEIGHT] at hlt ⊢
    omega

/-! ## Variant A: the `page.tsx` / `useTetrisGame` engine -/

/-- page.tsx `Tetromino`: shape grid, color, and its own board offset. -/
structure TetrominoA where
  shape : List (List Nat)
  color : String
  x : Int
  y : Int
deriving DecidableEq

/-- page.tsx `checkCollision(piece, boardState, dx, dy)` (the `newX/newY`
sums `piece.x + x + dx` are grouped as `(piece.x + dx) + x`). -/
def checkCollision (piece : TetrominoA) (boardState : Board) (dx dy : Int) : Bool :=
  shapeCollides piece.shape (piece.x + dx) (piece.y + dy) boardState

/-- page.tsx `placePiece(piece, boardState)`. -/
def placePiece (piece : TetrominoA) (boardState : Board) : Board :=
  placeShape piece.shape piece.x piece.y piece.color boardState

/-- The slice of React state that the variant-A engine reads and writes. -/
structure StateA where
  board : Board
  currentPiece : Option TetrominoA
  nextPiece : Option TetrominoA
  score : Int
  lines : Nat
  level : Nat
  gameOver : Bool
  isPaused : Bool
  gameStarted : Bool
  clearingRows : List Nat
  isClearing : Bool
deriving DecidableEq

/-- The `'left' | 'right' | 'down'` argument of variant A's `movePiece`. -/
inductive Direction
  | left
  | right
  | down
deriving DecidableEq

def dirDx : Direction → Int
  | .left => -1
  | .right => 1
  | .down => 0

def dirDy : Direction → Int
  | .down => 1
  | _ => 0

/-- page.tsx `movePiece(direction)` (lines 324–365): commit the translation
when collision-free; on a blocked down-move, lock the piece, then either
enter the line-clear animation state, or — with no full rows — commit the
board and declare game over iff the locked piece's `y <= 1`, otherwise
promote the next piece; `fresh` stands for `createRandomTetromino()`. -/
def movePieceA (direction : Direction) (fresh : TetrominoA) (s : StateA) : StateA :=
  match s.currentPiece with
  | none => s
  | some currentPiece =>
    if s.gameOver || s.isPaused then s
    else
      let dx := dirDx direction
      let dy := dirDy direction
      if !(checkCollision currentPiece s.board dx dy) then
        { s with
          currentPiece := some { currentPiece with
            x := currentPiece.x + dx
            y := currentPiece.y + dy } }
      else if direction = .down then
        let newBoard := placePiece currentPiece s.board
        let clearedLineYs := getClearedLines newBoard
        if clearedLineYs ≠ [] then
          { s with
            clearingRows := clearedLineYs
            isClearing := true }
        else if currentPiece.y ≤ 1 then
          { s with
            board := newBoard
            gameOver := true
            gameStarted := false }
        else
          { s with
            board := newBoard
            currentPiece := s.nextPiece
            nextPiece := some fresh }
      else s

/-- The rotation path shared by page.tsx's key handler (lines 508–515) and
the hook variant's `rotatePiece` (part_000 lines 1046–1053): rotate the
shape and commit iff the rotated piece collides with nothing at its
unchanged position.  No other offset is tried. -/
def rotatePieceA (s : StateA) : StateA :=
  match s.currentPiece with
  | none => s
  | some currentPiece =>
    if s.gameOver || s.isPaused || s.isClearing then s
    else
      let rotatedPiece := { currentPiece with shape := rotateShape currentPiece.shape }
      if !(checkCollision rotatedPiece s.board 0 0) then
        { s with currentPiece := some rotatedPiece }
      else s

/-- page.tsx `hardDrop` (lines 368–419), with the per-row animation elided:
probe the maximal drop, lock there; with full rows, enter the clearing
state (the accumulated `2 * distance` is never added on that path); with no
full rows, commit the board, check `finalY <= 1` for game over, else
promote the next piece and add `2 * distance` to the score. -/
def hardDropA (fresh : TetrominoA) (s : StateA) : StateA :=
  match s.currentPiece with
  | none => s
  | some currentPiece =>
    if s.gameOver || s.isPaused then s
    else
      let d := dropDistance currentPiece.shape currentPiece.x currentPiece.y s.board
      let dropped := { currentPiece with y := currentPiece.y + d }
      let newBoard := placePiece dropped s.board
      let clearedLineYs := getClearedLines newBoard
      if clearedLineYs ≠ [] then
        { s with
          currentPiece := some dropped
          clearingRows := clearedLineYs
          isClearing := true }
      else if dropped.y ≤ 1 then
        { s with
          currentPiece := some dropped
          board := newBoard
          gameOver := true
          gameStarted := false }
      else
        { s with
          board := newBoard
          currentPiece := s.nextPiece
          nextPiece := some fresh
          score := s.score + 2 * (d : Int) }

/-- `[0, 40, 100, 300, 1200]`, the per-clear scoring table of variant A. -/
def lineClearPoints : List Nat := [0, 40, 100, 300, 1200]

/-- The body of the line-clear effect (page.tsx lines 443–475) once the
animation column has swept the board: remove the stored rows, add
`table[count] * level` to the score, update lines/level, leave the clearing
state, and promote the next piece when neither game-over nor paused.
(For `count > 4` the JS table lookup is `undefined`; here `getD _ 0` — the
claims only concern `count ≤ 4`, the most a single lock can complete.) -/
def clearEffectA (fresh : TetrominoA) (s : StateA) : StateA :=
  if s.isClearing then
    let newBoardAfterClear := removeAndShiftLines s.board s.clearingRows
    let clearedCount := s.clearingRows.length
    let points := (lineClearPoints.getD clearedCount 0) * s.level
    let newLines := s.lines + clearedCount
    let newLevel := newLines / 10 + 1
    let s1 := { s with
      board := newBoardAfterClear
      score := s.score + (points : Int)
      lines := newLines
      level := newLevel
      clearingRows := List.nil
      isClearing := false }
    if !s.gameOver && !s.isPaused then
      { s1 with
        currentPiece := s.nextPiece
        nextPiece := some fresh }
    else s1
  else s

/-- A hard drop followed by the settled line-clear effect (the complete
state change of a hard drop that clears rows). -/
def hardDropSettledA (f1 f2 : TetrominoA) (s : StateA) : StateA :=
  clearEffectA f2 (hardDropA f1 s)

/-- The hook variant's `togglePause` (part_000 lines 1234–1236): toggles
unconditionally, with no game-over guard. -/
def togglePauseHook (s : StateA) : StateA :=
  { s with isPaused := !s.isPaused }

/-- The `'p'` branch of the hook variant's key handler, including its
early return `if (!gameStarted || gameOver || isClearing) return`. -/
def pauseKeyHook (s : StateA) : StateA :=
  if !s.gameStarted || s.gameOver || s.isClearing then s else togglePauseHook s

/-! ## Variant B: the first `part_000` component's engine -/

/-- part_000 `Tetromino`: shape grid and color (position kept separately). -/
structure TetrominoB where
  shape : List (List Nat)
  color : String
deriving DecidableEq

/-- part_000 `Position`. -/
structure Position where
  x : Int
  y : Int
deriving DecidableEq

/-- part_000 `isValidPosition(board, piece, pos)` — true iff no occupied
sub-cell violates the wall/floor/overlap conditions (lines 118–134). -/
def isValidPosition (board : Board) (piece : TetrominoB) (pos : Position) : Bool :=
  !(shapeCollides piece.shape pos.x pos.y board)

/-- part_000 `placePiece(board, piece, pos)` (lines 136–150). -/
def placePieceB (board : Board) (piece : TetrominoB) (pos : Position) : Board :=
  placeShape piece.shape pos.x pos.y piece.color board

/-- part_000 `calcLevel` (lines 74–76): `Math.floor(lines / 10) + 1`. -/
def calcLevel (lines : Nat) : Nat :=
  lines / 10 + 1

/-- The `switch (clearedLines)` over `POINTS.SINGLE/DOUBLE/TRIPLE/TETRIS`
(100/300/500/800); any other count leaves `points = 0` (the switch has no
default case). -/
def lockPoints : Nat → Nat
  | 1 => 100
  | 2 => 300
  | 3 => 500
  | 4 => 800
  | _ => 0

/-- `spawnNewPiece`'s start position (lines 159–172):
`x = Math.floor((BOARD_WIDTH - piece.shape[0].length) / 2)`, `y = 0`. -/
def spawnStartPos (piece : TetrominoB) : Position :=
  ⟨Int.fdiv ((BOARD_WIDTH : Int) - ((piece.shape.headD []).length : Int)) 2, 0⟩

/-- The slice of React state the variant-B engine reads and writes. -/
structure StateB where
  board : Board
  currentPiece : Option TetrominoB
  currentPosition : Position
  nextPiece : Option TetrominoB
  score : Int
  level : Nat
  lines : Nat
  gameOver : Bool
  isPaused : Bool
  gameStarted : Bool
deriving DecidableEq

/-- part_000 `movePiece(dx, dy, isPlayerMove)` (lines 199–252): translate
when valid (plus 1 soft-drop point for a player down-move); on a blocked
down-move, lock at the *current* position, run `clearLines`, add the
line-clear points (times the pre-lock level), update lines and level,
spawn the queued next piece (`f1` stands for `createRandomPiece()` when
the queue is empty, `f2` for the newly generated next piece), and set game
over exactly when the spawned piece is invalid at its start position on
the post-clear board. -/
def movePieceB (dx dy : Int) (isPlayerMove : Bool) (f1 f2 : TetrominoB) (s : StateB) :
    StateB :=
  match s.currentPiece with
  | none => s
  | some currentPiece =>
    if s.gameOver || s.isPaused then s
    else
      let newPos : Position := ⟨s.currentPosition.x + dx, s.currentPosition.y + dy⟩
      if isValidPosition s.board currentPiece newPos then
        { s with
          currentPosition := newPos
          score := s.score + (if isPlayerMove && decide (0 < dy) then 1 else 0) }
      else if 0 < dy then
        let newBoard := placePieceB s.board currentPiece s.currentPosition
        let cleared := clearLines newBoard
        let points := lockPoints cleared.2 * s.level
        let newLevel := calcLevel (s.lines + cleared.2)
        let piece := s.nextPiece.getD f1
        let startPos := spawnStartPos piece
        let over := !(isValidPosition cleared.1 piece startPos)
        { s with
          board := cleared.1
          lines := s.lines + cleared.2
          score := s.score + (points : Int)
          level := newLevel
          currentPiece := some piece
          currentPosition := startPos
          nextPiece := some f2
          gameOver := over
          gameStarted := if over then false else s.gameStarted }
      else s

/-- The wall-kick offsets of `rotatePieceHandler` (lines 280–287), in
source order: no offset, left 1, right 1, up 1, left 1 + up 1,
right 1 + up 1. -/
def wallKicks : List Position :=
  [⟨0, 0⟩, ⟨-1, 0⟩, ⟨1, 0⟩, ⟨0, -1⟩, ⟨-1, -1⟩, ⟨1, -1⟩]

/-- part_000 `rotatePieceHandler` (lines 275–301): rotate the shape, then
walk the kick list and commit the rotated piece at the first offset whose
position is valid; leave the state unchanged when every kick fails. -/
def rotatePieceHandler (s : StateB) : StateB :=
  match s.currentPiece with
  | none => s
  | some currentPiece =>
    if s.gameOver || s.isPaused then s
    else
      let rotatedPiece := { currentPiece with shape := rotateShape currentPiece.shape }
      match wallKicks.find? (fun kick =>
          isValidPosition s.board rotatedPiece
            ⟨s.currentPosition.x + kick.x, s.currentPosition.y + kick.y⟩) with
      | some kick =>
        { s with
          currentPiece := some rotatedPiece
          currentPosition := ⟨s.currentPosition.x + kick.x, s.currentPosition.y + kick.y⟩ }
      | none => s

/-- part_000 `dropPiece` (lines 323–378): probe the maximal drop distance,
add `2 * distance` to the score, lock at the final position, clear lines
(adding the table points times the pre-lock level), update lines and
level, spawn the next piece and set game over exactly as `movePiece`'s
down-lock does. -/
def dropPiece (f1 f2 : TetrominoB) (s : StateB) : StateB :=
  match s.currentPiece with
  | none => s
  | some currentPiece =>
    if s.gameOver || s.isPaused then s
    else
      let d := dropDistance currentPiece.shape s.currentPosition.x s.currentPosition.y s.board
      let newY := s.currentPosition.y + (d : Int)
      let newBoard := placePieceB s.board currentPiece ⟨s.currentPosition.x, newY⟩
      let cleared := clearLines newBoard
      let points := lockPoints cleared.2 * s.level
      let newLevel := calcLevel (s.lines + cleared.2)
      let piece := s.nextPiece.getD f1
      let startPos := spawnStartPos piece
      let over := !(isValidPosition cleared.1 piece startPos)
      { s with
        board := cleared.1
        lines := s.lines + cleared.2
        score := s.score + 2 * (d : Int) + (points : Int)
        level := newLevel
        currentPiece := some piece
        currentPosition := startPos
        nextPiece := some f2
        gameOver := over
        gameStarted := if over then false else s.gameStarted }

/-- part_000 `togglePause` (lines 397–400): a no-op while game over,
otherwise flip the paused flag. -/
def togglePause (s : StateB) : StateB :=
  if s.gameOver then s else { s with isPaused := !s.isPaused }

/-- One player/timer interaction with the variant-B engine. -/
inductive OpB
  | move (dx dy : Int) (isPlayerMove : Bool) (f1 f2 : TetrominoB)
  | rotate
  | dropHard (f1 f2 : TetrominoB)
  | pause

/-- Dispatch one operation. -/
def applyOp : OpB → StateB → StateB
  | .move dx dy pm f1 f2, s => movePieceB dx dy pm f1 f2 s
  | .rotate, s => rotatePieceHandler s
  | .dropHard f1 f2, s => dropPiece f1 f2 s
  | .pause, s => togglePause s

/-- Run a whole sequence of operations. -/
def applyOps (ops : List OpB) (s : StateB) : StateB :=
  ops.foldl (fun t op => applyOp op t) s

/-- `List.find?` returns the first satisfying element: the element
satisfies the predicate and everything before it fails it. -/
theorem find?_eq_some_first {α : Type} {p : α → Bool} :
    ∀ {l : List α} {a : α}, l.find? p = some a →
      p a = true ∧ ∃ pre post, l = pre ++ a :: post ∧ ∀ x ∈ pre, p x = false := by
  intro l
  induction l with
  | nil => intro a h; exact absurd h (by simp)
  | cons b l ih =>
    intro a h
    by_cases hb : p b
    · simp only [List.find?_cons, hb, Option.some.injEq] at h
      subst h
      exact ⟨hb, [], l, rfl, by simp⟩
    · simp only [List.find?_cons, hb] at h
      obtain ⟨ha, pre, post, rfl, hpre⟩ := ih h
      refine ⟨ha, b :: pre, post, rfl, fun x hx => ?_⟩
      rcases List.mem_cons.mp hx with rfl | hx
      · exact Bool.eq_false_iff.mpr hb
      · exact hpre x hx

/-! ## Concrete fixtures used by witnesses and counterexamples -/

/-- A row with the given columns occupied (by an arbitrary color). -/
def rowWith (cols : List Nat) : List Cell :=
  (List.range BOARD_WIDTH).map (fun c => if c ∈ cols then some "g" else none)

/-- A 20-row board described row-by-row. -/
def boardRows (f : Nat → List Cell) : Board :=
  (List.range BOARD_HEIGHT).map f

/-- part_000's I template with its color. -/
def pieceI_B : TetrominoB := ⟨[[1, 1, 1, 1]], "cyan"⟩

/-- page.tsx's O template at spawn column 4. -/
def pieceO_A4 : TetrominoA := ⟨[[1, 1], [1, 1]], "tetris-yellow", 4, 0⟩

/-- page.tsx's O template at column 0. -/
def pieceO_A0 : TetrominoA := ⟨[[1, 1], [1, 1]], "tetris-yellow", 0, 0⟩

/-- page.tsx's T template at spawn column 4. -/
def pieceT_A : TetrominoA := ⟨[[0, 1, 0], [1, 1, 1], [0, 0, 0]], "tetris-purple", 4, 0⟩

/-! ## C8 -/

/-- C8: level is the deterministic formula `floor(lines / 10) + 1`
(`calcLevel`), non-decreasing in cumulative lines, with
`level(10) > level(9)`; the variant-A line-clear effect recomputes level by
the same formula from its updated line count. -/
theorem C8_level_formula :
    (∀ n : Nat, calcLevel n = n / 10 + 1) ∧
    (∀ n m : Nat, n ≤ m → calcLevel n ≤ calcLevel m) ∧
    calcLevel 9 < calcLevel 10 ∧
    (∀ (s : StateA) (f : TetrominoA), s.isClearing = true →
      (clearEffectA f s).level = calcLevel ((clearEffectA f s).lines)) := by
  refine ⟨fun n => rfl, fun n m h => by unfold calcLevel; omega, by decide, ?_⟩
  intro s f h
  unfold clearEffectA calcLevel
  rw [if_pos h]
  by_cases hg : !s.gameOver && !s.isPaused
  · rw [if_pos hg]
  · rw [if_neg hg]

theorem C8_level_formula_witness :
    3 ≤ 12 ∧ calcLevel 3 ≤ calcLevel 12 :=
  ⟨by decide, C8_level_formula.2.1 3 12 (by decide)⟩

/-! ## C4 -/

/-- C4: the rotation transform `rotateShape` agrees with "transpose the
bounding box, then reverse each row", and applying it four times to any of
the fourteen catalog templates (both variants) returns the original shape
bit-for-bit. -/
theorem C4_rotation_transform :
    ∀ shape ∈ TETROMINOS_A ++ TETROMINOS_B,
      rotateShape shape = rotateByTransposeSpec shape ∧
      rotateShape (rotateShape (rotateShape (rotateShape shape))) = shape := by
  decide

theorem C4_rotation_transform_witness :
    [[1, 1, 1, 1]] ∈ TETROMINOS_A ++ TETROMINOS_B ∧
      rotateShape (rotateShape (rotateShape (rotateShape [[1, 1, 1, 1]]))) = [[1, 1, 1, 1]] :=
  ⟨by decide, (C4_rotation_transform [[1, 1, 1, 1]] (by decide)).2⟩

/-! ## C3 -/

/-- C3: line-clear resolution removes exactly the rows in which every cell
is occupied (`isFullRow`), keeps the remaining rows in order below
that many fresh empty rows, and preserves the 20-row count; the count of
removed rows equals the number of full rows (so N full rows remove exactly
N).  Both implementations — part_000's `clearLines` and page.tsx's
`getClearedLines`/`removeAndShiftLines` pipeline — produce this board. -/
theorem C3_line_clear (b : Board) (hb : b.length = BOARD_HEIGHT) :
    (clearLines b).2 = (b.filter isFullRow).length ∧
    (clearLines b).1 =
      List.replicate ((b.filter isFullRow).length) emptyRow ++
        b.filter (fun r => !(isFullRow r)) ∧
    (clearLines b).1.length = BOARD_HEIGHT ∧
    removeAndShiftLines b (getClearedLines b) =
      List.replicate ((b.filter isFullRow).length) emptyRow ++
        b.filter (fun r => !(isFullRow r)) := by
  have hc := clearLines_count hb
  refine ⟨hc, ?_, clearLines_length hb, removeAndShiftLines_getCleared hb⟩
  rw [clearLines_keep, hc]

/-- A board whose rows 5 and 7 are full. -/
def twoFullRowsBoard : Board :=
  boardRows (fun r => if r = 5 ∨ r = 7 then rowWith [0,1,2,3,4,5,6,7,8,9] else rowWith [0])

theorem C3_line_clear_witness :
    twoFullRowsBoard.length = BOARD_HEIGHT ∧ (clearLines twoFullRowsBoard).2 = 2 := by
  have h := C3_line_clear twoFullRowsBoard (by decide)
  exact ⟨by decide, by rw [h.1]; decide⟩

/-! ## C9 -/

/-- A game-over state of the hook variant. -/
def gameOverHookState : StateA :=
  ⟨emptyBoard, none, none, 0, 0, 1, true, false, false, [], false⟩

/-- C9 counterexample: the hook variant's `togglePause`
(part_000 lines 1234–1236), invoked with the game-over flag set, flips the
paused flag instead of leaving the state unchanged. -/
theorem C9_cex :
    gameOverHookState.gameOver = true ∧
    gameOverHookState.isPaused = false ∧
    (togglePauseHook gameOverHookState).isPaused = true := by
  decide

/-- C9 (amended): the engine-level `togglePause` of the first part_000
component is a no-op in the game-over state and otherwise toggles exactly
the paused flag; in the hook variant the game-over rejection lives in the
caller (the key handler returns early on game over), while the
`togglePause` function itself always toggles. -/
theorem C9_togglePause :
    (∀ s : StateB, s.gameOver = true → togglePause s = s) ∧
    (∀ s : StateB, s.gameOver = false →
      togglePause s = { s with isPaused := !s.isPaused }) ∧
    (∀ s : StateA, s.gameOver = true → pauseKeyHook s = s) := by
  refine ⟨fun s h => ?_, fun s h => ?_, fun s h => ?_⟩
  · rw [togglePause, if_pos h]
  · rw [togglePause, if_neg (by rw [h]; exact Bool.false_ne_true)]
  · rw [pauseKeyHook, if_pos (by rw [h]; simp)]

/-- A game-over state of the variant-B engine. -/
def gameOverStateB : StateB :=
  ⟨emptyBoard, none, ⟨0, 0⟩, none, 0, 1, 0, true, false, false⟩

theorem C9_togglePause_witness :
    gameOverStateB.gameOver = true ∧ togglePause gameOverStateB = gameOverStateB :=
  ⟨by decide, C9_togglePause.1 gameOverStateB (by decide)⟩

/-! ## C7 -/

theorem score_le_movePieceB (dx dy : Int) (pm : Bool) (f1 f2 : TetrominoB)
    (s : StateB) : s.score ≤ (movePieceB dx dy pm f1 f2 s).score := by
  rcases hp : s.currentPiece with _ | p
  · simp [movePieceB, hp]
  · simp only [movePieceB, hp]
    split_ifs <;> (try dsimp only) <;> omega

theorem score_le_rotatePieceHandler (s : StateB) :
    s.score ≤ (rotatePieceHandler s).score := by
  rcases hp : s.currentPiece with _ | p
  · simp [rotatePieceHandler, hp]
  · simp only [rotatePieceHandler, hp]
    split_ifs
    · omega
    · rcases hf : wallKicks.find? (fun kick =>
        isValidPosition s.board { p with shape := rotateShape p.shape }
          ⟨s.currentPosition.x + kick.x, s.currentPosition.y + kick.y⟩) with _ | k <;>
        simp only [hf] <;> omega

theorem score_le_dropPiece (f1 f2 : TetrominoB) (s : StateB) :
    s.score ≤ (dropPiece f1 f2 s).score := by
  rcases hp : s.currentPiece with _ | p
  · simp [dropPiece, hp]
  · simp only [dropPiece, hp]
    split_ifs <;> (try dsimp only) <;> omega

theorem score_le_togglePause (s : StateB) : s.score ≤ (togglePause s).score := by
  rw [togglePause]
  split_ifs <;> (try dsimp only) <;> omega

theorem score_le_applyOp (op : OpB) (s : StateB) : s.score ≤ (applyOp op s).score := by
  cases op with
  | move dx dy pm f1 f2 => exact score_le_movePieceB dx dy pm f1 f2 s
  | rotate => exact score_le_rotatePieceHandler s
  | dropHard f1 f2 => exact score_le_dropPiece f1 f2 s
  | pause => exact score_le_togglePause s

theorem score_le_applyOps (ops : List OpB) : ∀ s : StateB,
    s.score ≤ (applyOps ops s).score := by
  induction ops with
  | nil => intro s; exact le_rfl
  | cons op ops ih =>
    intro s
    exact le_trans (score_le_applyOp op s) (ih (applyOp op s))

theorem score_le_movePieceA (d : Direction) (f : TetrominoA) (s : StateA) :
    s.score ≤ (movePieceA d f s).score := by
  rcases hp : s.currentPiece with _ | p
  · simp [movePieceA, hp]
  · simp only [movePieceA, hp]
    split_ifs <;> (try dsimp only) <;> omega

theorem score_le_hardDropA (f : TetrominoA) (s : StateA) :
    s.score ≤ (hardDropA f s).score := by
  rcases hp : s.currentPiece with _ | p
  · simp [hardDropA, hp]
  · simp only [hardDropA, hp]
    split_ifs <;> (try dsimp only) <;> omega

theorem score_le_clearEffectA (f : TetrominoA) (s : StateA) :
    s.score ≤ (clearEffectA f s).score := by
  rw [clearEffectA]
  split_ifs <;> (try dsimp only) <;> omega

/-- C7: the score never decreases: across any sequence of variant-B engine
operations (moves and soft drops, rotations, hard drops, pause toggles)
the score is monotonically non-decreasing, and each variant-A state change
(move, hard drop, rotation, settled line-clear effect with at most four
rows — the most a lock can complete) adds a non-negative amount. -/
theorem C7_score_monotone :
    (∀ (s : StateB) (ops : List OpB), s.score ≤ (applyOps ops s).score) ∧
    (∀ (s : StateA) (d : Direction) (f : TetrominoA),
      s.score ≤ (movePieceA d f s).score) ∧
    (∀ (s : StateA) (f : TetrominoA), s.score ≤ (hardDropA f s).score) ∧
    (∀ s : StateA, s.score ≤ (rotatePieceA s).score) ∧
    (∀ (s : StateA) (f : TetrominoA), s.clearingRows.length ≤ 4 →
      s.score ≤ (clearEffectA f s).score) := by
  refine ⟨fun s ops => score_le_applyOps ops s,
    fun s d f => score_le_movePieceA d f s,
    fun s f => score_le_hardDropA f s,
    fun s => ?_,
    fun s f _ => score_le_clearEffectA f s⟩
  rcases hp : s.currentPiece with _ | p
  · simp [rotatePieceA, hp]
  · simp only [rotatePieceA, hp]
    split_ifs <;> (try dsimp only) <;> omega

/-- A clearing state with one stored row. -/
def clearingState : StateA :=
  ⟨boardRows (fun r => if r = 19 then rowWith [0,1,2,3,4,5,6,7,8,9] else emptyRow),
    none, some pieceO_A4, 7, 0, 1, false, false, true, [19], true⟩

theorem C7_score_monotone_witness :
    clearingState.clearingRows.length ≤ 4 ∧
      clearingState.score ≤ (clearEffectA pieceO_A4 clearingState).score :=
  ⟨by decide, C7_score_monotone.2.2.2.2 clearingState pieceO_A4 (by decide)⟩

/-! ## C5 -/

/-- A board whose only occupied cell is row 1, column 6. -/
def boardCell16 : Board :=
  boardRows (fun r => if r = 1 then rowWith [6] else emptyRow)

/-- A running variant-A state: T at (4,0), one board cell at (1,6). -/
def rotateBlockedState : StateA :=
  ⟨boardCell16, some pieceT_A, none, 0, 0, 1, false, false, true, [], false⟩

/-- C5 counterexample: in the page.tsx / hook rotation path, the rotated T
collides in place (cell (1,6)) while the claimed second kick offset
(left 1) is collision-free — yet the rotation is rejected outright and the
state is unchanged, contradicting "committing the rotated shape at the
first offset whose position is collision-free". -/
theorem C5_cex :
    checkCollision { pieceT_A with shape := rotateShape pieceT_A.shape }
      rotateBlockedState.board 0 0 = true ∧
    checkCollision { pieceT_A with shape := rotateShape pieceT_A.shape, x := 3 }
      rotateBlockedState.board 0 0 = false ∧
    rotatePieceA rotateBlockedState = rotateBlockedState := by
  decide

/-- C5 (amended): only part_000's `rotatePieceHandler` implements the
claimed kick sequence — it commits the rotated shape at the first offset
among (0,0), (−1,0), (1,0), (0,−1), (−1,−1), (1,−1) whose position is
collision-free, and leaves the state unchanged when none is; the page.tsx
and hook rotation paths instead try only the unshifted position,
committing iff the rotated piece collides with nothing there and rejecting
the rotation otherwise. -/
theorem C5_rotation_kicks :
    (∀ (s : StateB) (p : TetrominoB), s.currentPiece = some p →
      s.gameOver = false → s.isPaused = false →
      ((∀ k ∈ wallKicks, isValidPosition s.board { p with shape := rotateShape p.shape }
          ⟨s.currentPosition.x + k.x, s.currentPosition.y + k.y⟩ = false) ∧
        rotatePieceHandler s = s) ∨
      (∃ k pre post, wallKicks = pre ++ k :: post ∧
        isValidPosition s.board { p with shape := rotateShape p.shape }
          ⟨s.currentPosition.x + k.x, s.currentPosition.y + k.y⟩ = true ∧
        (∀ k' ∈ pre, isValidPosition s.board { p with shape := rotateShape p.shape }
          ⟨s.currentPosition.x + k'.x, s.currentPosition.y + k'.y⟩ = false) ∧
        rotatePieceHandler s = { s with
          currentPiece := some { p with shape := rotateShape p.shape }
          currentPosition :=
            ⟨s.currentPosition.x + k.x, s.currentPosition.y + k.y⟩ })) ∧
    (∀ (s : StateA) (p : TetrominoA), s.currentPiece = some p →
      s.gameOver = false → s.isPaused = false → s.isClearing = false →
      (checkCollision { p with shape := rotateShape p.shape } s.board 0 0 = false →
        rotatePieceA s =
          { s with currentPiece := some { p with shape := rotateShape p.shape } }) ∧
      (checkCollision { p with shape := rotateShape p.shape } s.board 0 0 = true →
        rotatePieceA s = s)) := by
  constructor
  · intro s p hp hgo hpa
    rcases hf : wallKicks.find? (fun kick =>
        isValidPosition s.board { p with shape := rotateShape p.shape }
          ⟨s.currentPosition.x + kick.x, s.currentPosition.y + kick.y⟩) with _ | k
    · left
      have hall := List.find?_eq_none.mp hf
      refine ⟨fun k hk => Bool.eq_false_iff.mpr (hall k hk), ?_⟩
      rw [rotatePieceHandler, hp]
      simp only [hgo, hpa, Bool.or_self, Bool.false_eq_true, if_false, hf]
    · right
      obtain ⟨hk, pre, post, hsplit, hpre⟩ := find?_eq_some_first hf
      refine ⟨k, pre, post, hsplit, hk, fun k' hk' => hpre k' hk', ?_⟩
      rw [rotatePieceHandler, hp]
      simp only [hgo, hpa, Bool.or_self, Bool.false_eq_true, if_false, hf]
  · intro s p hp hgo hpa hcl
    constructor
    · intro hc
      rw [rotatePieceA, hp]
      simp only [hgo, hpa, hcl, Bool.or_self, Bool.false_eq_true, if_false, hc,
        Bool.not_false, if_pos]
    · intro hc
      rw [rotatePieceA, hp]
      simp only [hgo, hpa, hcl, Bool.or_self, Bool.false_eq_true, if_false, hc,
        Bool.not_true, if_neg]

/-- A running variant-B state: the I piece at its spawn position on the
empty board. -/
def spawnStateB : StateB :=
  ⟨emptyBoard, some pieceI_B, ⟨3, 0⟩, none, 0, 1, 0, false, false, true⟩

theorem C5_rotation_kicks_witness :
    spawnStateB.currentPiece = some pieceI_B ∧
      (((∀ k ∈ wallKicks, isValidPosition spawnStateB.board
            { pieceI_B with shape := rotateShape pieceI_B.shape }
            ⟨spawnStateB.currentPosition.x + k.x, spawnStateB.currentPosition.y + k.y⟩
              = false) ∧
          rotatePieceHandler spawnStateB = spawnStateB) ∨
        (∃ k pre post, wallKicks = pre ++ k :: post ∧
          isValidPosition spawnStateB.board
            { pieceI_B with shape := rotateShape pieceI_B.shape }
            ⟨spawnStateB.currentPosition.x + k.x, spawnStateB.currentPosition.y + k.y⟩
              = true ∧
          (∀ k' ∈ pre, isValidPosition spawnStateB.board
            { pieceI_B with shape := rotateShape pieceI_B.shape }
            ⟨spawnStateB.currentPosition.x + k'.x, spawnStateB.currentPosition.y + k'.y⟩
              = false) ∧
          rotatePieceHandler spawnStateB = { spawnStateB with
            currentPiece := some { pieceI_B with shape := rotateShape pieceI_B.shape }
            currentPosition := ⟨spawnStateB.currentPosition.x + k.x,
              spawnStateB.currentPosition.y + k.y⟩ })) :=
  ⟨rfl, C5_rotation_kicks.1 spawnStateB pieceI_B rfl rfl rfl⟩

/-! ## C1 -/

/-- A board whose row 3 has columns 2, 3, 4 occupied. -/
def boardRow3Blocked : Board :=
  boardRows (fun r => if r = 3 then rowWith [2, 3, 4] else emptyRow)

/-- A running variant-B state: the I piece at its spawn position (3,0),
with row 3 blocked under and beside it. -/
def kickUpState : StateB :=
  ⟨boardRow3Blocked, some pieceI_B, ⟨3, 0⟩, none, 0, 1, 0, false, false, true⟩

/-- C1 counterexample: from this state the part_000 rotation handler
accepts the rotation at the up-kick — the active piece becomes the
vertical I at position (3,−1), one of whose occupied sub-cells projects to
board row −1, outside the rectangle [0,width) × [0,height). -/
theorem C1_cex :
    kickUpState.currentPosition = ⟨3, 0⟩ ∧
    (rotatePieceHandler kickUpState).currentPiece =
      some ⟨[[1], [1], [1], [1]], "cyan"⟩ ∧
    (rotatePieceHandler kickUpState).currentPosition = ⟨3, -1⟩ ∧
    ((-1 : Int), (3 : Int)) ∈ shapeCells [[1], [1], [1], [1]] 3 (-1) := by
  decide

/-- C1 (amended): after a successful move, and after any accepted
rotation, every occupied sub-cell of the active piece lies within the side
walls (columns [0,width)) and above the floor (row < height), and every
sub-cell on a row ≥ 0 does not overlap an occupied board cell; sub-cells
may, however, lie above the top edge (negative row), which the collision
check — applied before the mutation is committed — leaves unconstrained.
The successful move commits exactly the translation (board untouched). -/
theorem C1_no_overlap_in_bounds :
    (∀ (s : StateA) (d : Direction) (f : TetrominoA) (p : TetrominoA),
      s.currentPiece = some p → s.gameOver = false → s.isPaused = false →
      checkCollision p s.board (dirDx d) (dirDy d) = false →
      (movePieceA d f s).board = s.board ∧
      (movePieceA d f s).currentPiece =
        some { p with x := p.x + dirDx d, y := p.y + dirDy d } ∧
      ∀ rc ∈ shapeCells p.shape (p.x + dirDx d) (p.y + dirDy d), CellOK s.board rc) ∧
    (∀ s : StateB, rotatePieceHandler s = s ∨
      ∃ p' pos', (rotatePieceHandler s).currentPiece = some p' ∧
        (rotatePieceHandler s).currentPosition = pos' ∧
        (rotatePieceHandler s).board = s.board ∧
        isValidPosition s.board p' pos' = true ∧
        ∀ rc ∈ shapeCells p'.shape pos'.x pos'.y, CellOK s.board rc) := by
  constructor
  · intro s d f p hp hgo hpa hc
    have hcells := shapeCollides_eq_false.mp hc
    rw [movePieceA, hp]
    simp only [hgo, hpa, Bool.or_self, Bool.false_eq_true, if_false, hc,
      Bool.not_false, if_pos]
    exact ⟨by trivial, by trivial, hcells⟩
  · intro s
    rcases hp : s.currentPiece with _ | p
    · left
      rw [rotatePieceHandler, hp]
    · by_cases hg : s.gameOver || s.isPaused
      · left
        rw [rotatePieceHandler, hp]
        simp only [hg, if_true]
      · have hg' : (s.gameOver || s.isPaused) = false := by simpa using hg
        rcases hf : wallKicks.find? (fun kick =>
            isValidPosition s.board { p with shape := rotateShape p.shape }
              ⟨s.currentPosition.x + kick.x, s.currentPosition.y + kick.y⟩) with _ | k
        · left
          rw [rotatePieceHandler, hp]
          simp only [hg', Bool.false_eq_true, if_false, hf]
        · right
          have hk := List.find?_some hf
          refine ⟨{ p with shape := rotateShape p.shape },
            ⟨s.currentPosition.x + k.x, s.currentPosition.y + k.y⟩, ?_, ?_, ?_, hk, ?_⟩
          · rw [rotatePieceHandler, hp]
            simp only [hg', Bool.false_eq_true, if_false, hf]
          · rw [rotatePieceHandler, hp]
            simp only [hg', Bool.false_eq_true, if_false, hf]
          · rw [rotatePieceHandler, hp]
            simp only [hg', Bool.false_eq_true, if_false, hf]
          · have hsc : shapeCollides (rotateShape p.shape)
                (s.currentPosition.x + k.x) (s.currentPosition.y + k.y) s.board = false := by
              rw [isValidPosition] at hk
              simpa using hk
            exact shapeCollides_eq_false.mp hsc

/-- A running variant-A state: the O piece at (4,0) on the empty board. -/
def freeMoveState : StateA :=
  ⟨emptyBoard, some pieceO_A4, none, 0, 0, 1, false, false, true, [], false⟩

theorem C1_no_overlap_in_bounds_witness :
    checkCollision pieceO_A4 freeMoveState.board (dirDx Direction.left)
        (dirDy Direction.left) = false ∧
      ∀ rc ∈ shapeCells pieceO_A4.shape (pieceO_A4.x + dirDx Direction.left)
        (pieceO_A4.y + dirDy Direction.left), CellOK freeMoveState.board rc :=
  ⟨by decide, (C1_no_overlap_in_bounds.1 freeMoveState Direction.left pieceO_A4
    pieceO_A4 rfl rfl rfl (by decide)).2.2⟩

/-! ## C2 -/

/-- A board with columns 0 and 1 occupied on rows 2 through 19. -/
def towerBoard : Board :=
  boardRows (fun r => if 2 ≤ r then rowWith [0, 1] else emptyRow)

/-- A running page.tsx state: the O piece at (0,0) resting on the tower,
with the next O queued for spawn column 4. -/
def topLockState : StateA :=
  ⟨towerBoard, some pieceO_A0, some pieceO_A4, 0, 0, 1, false, false, true, [], false⟩

/-- C2 counterexample: in page.tsx, this blocked down-move locks the O at
(0,0) (no row completes) and sets game over because the locked piece's
`y ≤ 1` — although the next piece's spawn position does not collide with
the post-lock board, where the claim says the game must not end. -/
theorem C2_cex :
    checkCollision pieceO_A0 topLockState.board 0 1 = true ∧
    getClearedLines (placePiece pieceO_A0 topLockState.board) = [] ∧
    (movePieceA Direction.down pieceO_A4 topLockState).gameOver = true ∧
    checkCollision pieceO_A4 (movePieceA Direction.down pieceO_A4 topLockState).board
      0 0 = false := by
  decide

/-- C2 (amended): in the part_000 engine the claim holds as stated: a
blocked down-move locks the piece at its pre-attempt position, runs
line-clear resolution, promotes the queued piece and generates a new next
piece, and sets game over exactly when the spawned piece's spawn position
is invalid on the post-clear board.  In the page.tsx variant the
lock-then-spawn path runs only when no row completes, and its game-over
test is `lockedPiece.y ≤ 1` rather than a spawn-collision test (on game
over the next piece is not promoted); when rows complete, the piece is
promoted later by the clear effect with no game-over check at all. -/
theorem C2_down_lock :
    (∀ (s : StateB) (pm : Bool) (f1 f2 : TetrominoB) (p : TetrominoB),
      s.currentPiece = some p → s.gameOver = false → s.isPaused = false →
      isValidPosition s.board p
        ⟨s.currentPosition.x, s.currentPosition.y + 1⟩ = false →
      (movePieceB 0 1 pm f1 f2 s).board =
        (clearLines (placePieceB s.board p s.currentPosition)).1 ∧
      (movePieceB 0 1 pm f1 f2 s).currentPiece = some (s.nextPiece.getD f1) ∧
      (movePieceB 0 1 pm f1 f2 s).currentPosition =
        spawnStartPos (s.nextPiece.getD f1) ∧
      (movePieceB 0 1 pm f1 f2 s).nextPiece = some f2 ∧
      ((movePieceB 0 1 pm f1 f2 s).gameOver = true ↔
        isValidPosition (clearLines (placePieceB s.board p s.currentPosition)).1
          (s.nextPiece.getD f1) (spawnStartPos (s.nextPiece.getD f1)) = false)) ∧
    (∀ (s : StateA) (f : TetrominoA) (p : TetrominoA),
      s.currentPiece = some p → s.gameOver = false → s.isPaused = false →
      checkCollision p s.board 0 1 = true →
      getClearedLines (placePiece p s.board) = [] →
      (movePieceA Direction.down f s).board = placePiece p s.board ∧
      (movePieceA Direction.down f s).gameOver = decide (p.y ≤ 1) ∧
      (p.y ≤ 1 → (movePieceA Direction.down f s).currentPiece = some p) ∧
      (¬(p.y ≤ 1) →
        (movePieceA Direction.down f s).currentPiece = s.nextPiece ∧
        (movePieceA Direction.down f s).nextPiece = some f)) ∧
    (∀ (s : StateA) (f : TetrominoA), s.isClearing = true → s.gameOver = false →
      s.isPaused = false →
      (clearEffectA f s).currentPiece = s.nextPiece ∧
      (clearEffectA f s).gameOver = false) := by
  refine ⟨?_, ?_, ?_⟩
  · intro s pm f1 f2 p hp hgo hpa hv
    rw [movePieceB, hp]
    simp only [add_zero, hgo, hpa, Bool.or_self, Bool.false_eq_true, if_false, hv,
      if_pos (by norm_num : (0 : Int) < 1)]
    exact ⟨by trivial, by trivial, by trivial, by trivial, by
      constructor
      · intro h
        simpa using h.symm
      · intro h
        simp [h]⟩
  · intro s f p hp hgo hpa hc hcl
    rw [movePieceA, hp]
    simp only [dirDx, dirDy, hgo, hpa, Bool.or_self, Bool.false_eq_true, if_false, hc,
      Bool.not_true, hcl, ne_eq, not_true_eq_false, if_false, if_pos rfl]
    by_cases hy : p.y ≤ 1
    · simp only [hy]
      exact ⟨by trivial, by trivial, fun _ => by trivial, fun h => absurd trivial h⟩
    · simp only [hy]
      exact ⟨by trivial, by trivial, fun h => False.elim h,
        fun _ => ⟨by trivial, by trivial⟩⟩
  · intro s f hcl hgo hpa
    rw [clearEffectA, if_pos hcl]
    simp only [hgo, hpa, Bool.not_false, Bool.and_self, if_pos]
    exact ⟨by trivial, by trivial⟩

/-- part_000's O template. -/
def pieceO_B : TetrominoB := ⟨[[1, 1], [1, 1]], "yellow"⟩

/-- part_000's T template. -/
def pieceT_B : TetrominoB := ⟨[[0, 1, 0], [1, 1, 1]], "purple"⟩

/-- A running variant-B state: the O piece resting on the floor at (4,18),
another O queued. -/
def bottomLockState : StateB :=
  ⟨emptyBoard, some pieceO_B, ⟨4, 18⟩, some pieceO_B, 0, 1, 0, false, false, true⟩

theorem C2_down_lock_witness :
    isValidPosition bottomLockState.board pieceO_B
        ⟨bottomLockState.currentPosition.x, bottomLockState.currentPosition.y + 1⟩
          = false ∧
      ((movePieceB 0 1 false pieceT_B pieceT_B bottomLockState).gameOver = true ↔
        isValidPosition
          (clearLines (placePieceB bottomLockState.board pieceO_B
            bottomLockState.currentPosition)).1
          (bottomLockState.nextPiece.getD pieceT_B)
          (spawnStartPos (bottomLockState.nextPiece.getD pieceT_B)) = false) :=
  ⟨by decide, (C2_down_lock.1 bottomLockState false pieceT_B pieceT_B pieceO_B
    rfl rfl rfl (by decide)).2.2.2.2⟩

/-! ## C6 -/

/-- A board whose bottom row is full except columns 4 and 5. -/
def notchedBottomBoard : Board :=
  boardRows (fun r => if r = 19 then rowWith [0, 1, 2, 3, 6, 7, 8, 9] else emptyRow)

/-- A running page.tsx state: the O piece at spawn (4,0) above the notch. -/
def dropClearState : StateA :=
  ⟨notchedBottomBoard, some pieceO_A4, some pieceO_A0, 0, 0, 1, false, false, true,
    [], false⟩

/-- C6 counterexample: in page.tsx this hard drop travels 18 cells and
completes the bottom row, but the settled score gains only the line-clear
points `40 * level` — the claimed `2 * 18` drop award is never added on
the line-clear path. -/
theorem C6_cex :
    dropDistance pieceO_A4.shape pieceO_A4.x pieceO_A4.y dropClearState.board = 18 ∧
    dropClearState.score = 0 ∧
    (hardDropSettledA pieceO_A4 pieceO_A0 dropClearState).lines = 1 ∧
    (hardDropSettledA pieceO_A4 pieceO_A0 dropClearState).score = 40 := by
  decide

/-- C6 (amended): part_000's `dropPiece` behaves as claimed: the probed
distance is the maximal collision-free downward translation, `2 * distance`
is always added to the score (together with the line-clear table points),
the piece locks at the final position, lines are resolved, the next piece
is spawned, and game over is set exactly by `movePiece`'s spawn-collision
test.  In the page.tsx variant the `2 * distance` award is added only when
the drop completes no row (it is silently dropped otherwise), and the
game-over test is `finalY ≤ 1` on the locked position. -/
theorem C6_hard_drop :
    (∀ (s : StateB) (f1 f2 : TetrominoB) (p : TetrominoB),
      s.currentPiece = some p → s.gameOver = false → s.isPaused = false →
      shapeCells p.shape s.currentPosition.x s.currentPosition.y ≠ [] →
      (∀ k : Nat, 0 < k →
        k ≤ dropDistance p.shape s.currentPosition.x s.currentPosition.y s.board →
        isValidPosition s.board p
          ⟨s.currentPosition.x, s.currentPosition.y + (k : Int)⟩ = true) ∧
      isValidPosition s.board p
        ⟨s.currentPosition.x, s.currentPosition.y +
          ((dropDistance p.shape s.currentPosition.x s.currentPosition.y s.board : Nat) : Int)
            + 1⟩ = false ∧
      (dropPiece f1 f2 s).score = s.score +
        2 * ((dropDistance p.shape s.currentPosition.x s.currentPosition.y s.board : Nat) : Int) +
        ((lockPoints (clearLines (placePieceB s.board p
          ⟨s.currentPosition.x, s.currentPosition.y +
            ((dropDistance p.shape s.currentPosition.x s.currentPosition.y s.board : Nat) : Int)⟩)).2
            * s.level : Nat) : Int) ∧
      (dropPiece f1 f2 s).board = (clearLines (placePieceB s.board p
        ⟨s.currentPosition.x, s.currentPosition.y +
          ((dropDistance p.shape s.currentPosition.x s.currentPosition.y s.board : Nat) : Int)⟩)).1 ∧
      (dropPiece f1 f2 s).currentPiece = some (s.nextPiece.getD f1) ∧
      (dropPiece f1 f2 s).nextPiece = some f2 ∧
      ((dropPiece f1 f2 s).gameOver = true ↔
        isValidPosition (clearLines (placePieceB s.board p
          ⟨s.currentPosition.x, s.currentPosition.y +
            ((dropDistance p.shape s.currentPosition.x s.currentPosition.y s.board : Nat) : Int)⟩)).1
          (s.nextPiece.getD f1) (spawnStartPos (s.nextPiece.getD f1)) = false)) ∧
    (∀ (s : StateA) (f1 f2 : TetrominoA) (p : TetrominoA),
      s.currentPiece = some p → s.gameOver = false → s.isPaused = false →
      (getClearedLines (placePiece
          { p with y := p.y + ((dropDistance p.shape p.x p.y s.board : Nat) : Int) }
          s.board) = [] →
        ¬(p.y + ((dropDistance p.shape p.x p.y s.board : Nat) : Int) ≤ 1) →
        (hardDropA f1 s).score =
          s.score + 2 * ((dropDistance p.shape p.x p.y s.board : Nat) : Int) ∧
        (hardDropA f1 s).gameOver = false) ∧
      (getClearedLines (placePiece
          { p with y := p.y + ((dropDistance p.shape p.x p.y s.board : Nat) : Int) }
          s.board) = [] →
        p.y + ((dropDistance p.shape p.x p.y s.board : Nat) : Int) ≤ 1 →
        (hardDropA f1 s).gameOver = true ∧ (hardDropA f1 s).score = s.score) ∧
      (getClearedLines (placePiece
          { p with y := p.y + ((dropDistance p.shape p.x p.y s.board : Nat) : Int) }
          s.board) ≠ [] →
        (hardDropSettledA f1 f2 s).score = s.score +
          ((lineClearPoints.getD (getClearedLines (placePiece
            { p with y := p.y + ((dropDistance p.shape p.x p.y s.board : Nat) : Int) }
            s.board)).length 0 * s.level : Nat) : Int))) := by
  constructor
  · intro s f1 f2 p hp hgo hpa hocc
    obtain ⟨hfits, hstop⟩ := dropDistance_spec (b := s.board) hocc
    refine ⟨?_, ?_, ?_, ?_, ?_, ?_, ?_⟩
    · intro k hk1 hk2
      rw [isValidPosition, hfits k hk1 hk2]
      rfl
    · rw [isValidPosition, hstop]
      rfl
    all_goals
      rw [dropPiece, hp]
      simp only [hgo, hpa, Bool.or_self, Bool.false_eq_true, if_false]
    constructor
    · intro h
      simpa using h.symm
    · intro h
      simp [h]
  · intro s f1 f2 p hp hgo hpa
    refine ⟨?_, ?_, ?_⟩
    · intro hcl hy
      rw [hardDropA, hp]
      simp only [hgo, hpa, Bool.or_self, Bool.false_eq_true, if_false, hcl, ne_eq,
        not_true_eq_false, hy]
      exact ⟨by trivial, by trivial⟩
    · intro hcl hy
      rw [hardDropA, hp]
      simp only [hgo, hpa, Bool.or_self, Bool.false_eq_true, if_false, hcl, ne_eq,
        not_true_eq_false, hy]
      exact ⟨by trivial, by trivial⟩
    · intro hcl
      rw [hardDropSettledA, hardDropA, hp]
      simp only [hgo, hpa, Bool.or_self, Bool.false_eq_true, if_false, hcl, ne_eq,
        not_false_eq_true, if_pos]
      rw [clearEffectA]
      simp only [hgo, hpa, Bool.not_false, Bool.and_self, if_pos, if_true]

/-- A running variant-B state: the O piece at (4,0) over the empty board. -/
def dropStateB : StateB :=
  ⟨emptyBoard, some pieceO_B, ⟨4, 0⟩, some pieceO_B, 0, 1, 0, false, false, true⟩

theorem C6_hard_drop_witness :
    shapeCells pieceO_B.shape dropStateB.currentPosition.x
        dropStateB.currentPosition.y ≠ [] ∧
      (dropPiece pieceT_B pieceT_B dropStateB).score = dropStateB.score +
        2 * ((dropDistance pieceO_B.shape dropStateB.currentPosition.x
          dropStateB.currentPosition.y dropStateB.board : Nat) : Int) +
        ((lockPoints (clearLines (placePieceB dropStateB.board pieceO_B
          ⟨dropStateB.currentPosition.x, dropStateB.currentPosition.y +
            ((dropDistance pieceO_B.shape dropStateB.currentPosition.x
              dropStateB.currentPosition.y dropStateB.board : Nat) : Int)⟩)).2
          * dropStateB.level : Nat) : Int) :=
  ⟨by decide, (C6_hard_drop.1 dropStateB pieceT_B pieceT_B pieceO_B rfl rfl rfl
    (by decide)).2.2.1⟩

/-! ## C10 -/

/-- C10: the collision check constrains an occupied sub-cell only by the
side walls, the floor, and — for rows ≥ 0 — overlap with occupied board
cells; rows above the top edge are treated as in-bounds and unoccupied, so
a position extending above row 0 is accepted (e.g. the vertical I at
(3,−1) on the empty board); and `placePiece` writes the piece color to
exactly the occupied sub-cells with non-negative board row, leaving every
other board cell, and the row count, unchanged — the sub-cells on negative
rows are silently discarded. -/
theorem C10_negative_rows :
    (∀ (p : TetrominoA) (b : Board) (dx dy : Int),
      checkCollision p b dx dy = false ↔
        ∀ rc ∈ shapeCells p.shape (p.x + dx) (p.y + dy), CellOK b rc) ∧
    checkCollision ⟨[[1], [1], [1], [1]], "tetris-cyan", 3, -1⟩ emptyBoard 0 0
      = false ∧
    (∀ (p : TetrominoA) (b : Board), BoardWF b →
      (∀ rc ∈ shapeCells p.shape p.x p.y, 0 ≤ rc.1 →
        0 ≤ rc.2 ∧ rc.1 < (BOARD_HEIGHT : Int) ∧ rc.2 < (BOARD_WIDTH : Int)) →
      ∀ r c : Nat,
        cellAtN (placePiece p b) r c =
          if ((r : Int), (c : Int)) ∈ shapeCells p.shape p.x p.y then some p.color
          else cellAtN b r c) ∧
    (∀ (p : TetrominoA) (b : Board), (placePiece p b).length = b.length) := by
  refine ⟨fun p b dx dy => shapeCollides_eq_false, by decide, ?_, ?_⟩
  · intro p b hwf hin r c
    exact cellAtN_placeShape hwf hin r c
  · intro p b
    exact length_placeShape p.shape p.x p.y p.color b

/-- The vertical I locked while extending one row above the top edge. -/
def aboveTopPiece : TetrominoA := ⟨[[1], [1], [1], [1]], "tetris-cyan", 3, -1⟩

theorem C10_negative_rows_witness :
    BoardWF emptyBoard ∧
      cellAtN (placePiece aboveTopPiece emptyBoard) 0 3 = some "tetris-cyan" ∧
      cellAtN (placePiece aboveTopPiece emptyBoard) 0 4 = none := by
  have h := C10_negative_rows.2.2.1 aboveTopPiece emptyBoard (by decide) (by decide)
  refine ⟨by decide, ?_, ?_⟩
  · rw [h 0 3]
    decide
  · rw [h 0 4]
    decide
